import Mathlib

/-!
Shallow embedding of the obsidian-wikipedia plugin core (src/main.ts) and
proofs about it.

Strings are modelled as lists of characters.  The JavaScript string
primitives the source uses (split, trim, replace, includes, indexOf) are
embedded with their JavaScript semantics, including the substitution
patterns recognised in the replacement argument of String.replace.  The
regular-expression engine used by the bold-search-term step is embedded
on the fragment the source can exercise with well-formed behaviour:
patterns built from plain characters and the dot wildcard, with the i
flag.  Patterns that are valid JavaScript but fall outside that fragment
are mapped to the marker error JsError.outsideModel, about which no
theorem claims anything.
-/

abbrev JsStr := List Char

def dollarChar : Char := '$'

def ampChar : Char := '&'

def backquoteChar : Char := Char.ofNat 96

def singleQuoteChar : Char := Char.ofNat 39

def openBraceChar : Char := Char.ofNat 123

/-- The whitespace characters trimmed by JavaScript String.prototype.trim
(the characters that can actually occur in the data this program handles,
plus the usual Unicode extras). -/
def isJsSpace (c : Char) : Bool :=
  [' ', '\t', '\n', '\r', Char.ofNat 11, Char.ofNat 12, Char.ofNat 0xA0,
   Char.ofNat 0x1680, Char.ofNat 0x2028, Char.ofNat 0x2029, Char.ofNat 0x202F,
   Char.ofNat 0x205F, Char.ofNat 0x3000, Char.ofNat 0xFEFF].contains c

/-- JavaScript s.trim(): remove leading and trailing whitespace. -/
def jsTrim (s : JsStr) : JsStr :=
  ((s.dropWhile isJsSpace).reverse.dropWhile isJsSpace).reverse

/-- JavaScript s.indexOf(pat): index of the first occurrence of pat in s,
none when there is no occurrence.  The empty pattern occurs at index 0. -/
def jsIndexOf : JsStr → JsStr → Option Nat
  | [], pat => if pat.isPrefixOf ([] : JsStr) then some 0 else none
  | c :: rest, pat =>
    if pat.isPrefixOf (c :: rest) then some 0
    else (jsIndexOf rest pat).map (· + 1)

/-- JavaScript s.includes(pat). -/
def jsIncludes (s pat : JsStr) : Bool :=
  (jsIndexOf s pat).isSome

/-- Fuelled worker for jsSplit; the fuel is the length of the string being
split, which bounds the number of characters still to be consumed. -/
def jsSplitF (sep : JsStr) : Nat → JsStr → JsStr → List JsStr
  | 0, s, acc => [acc.reverse ++ s]
  | fuel + 1, s, acc =>
    match s with
    | [] => [acc.reverse]
    | c :: rest =>
      if sep ≠ [] ∧ sep.isPrefixOf (c :: rest) then
        acc.reverse :: jsSplitF sep fuel (rest.drop (sep.length - 1)) []
      else
        jsSplitF sep fuel rest (c :: acc)

/-- JavaScript s.split(sep): split on every (leftmost, non-overlapping)
occurrence of sep, keeping empty segments.  s.split("") splits into
single characters. -/
def jsSplit (s sep : JsStr) : List JsStr :=
  if sep = [] then s.map (fun c => [c]) else jsSplitF sep s.length s []

/-- The GetSubstitution step of JavaScript String.replace: expand the
substitution patterns occurring in a replacement string.  With a string
pattern (or a group-free regular expression) the active patterns are
two dollars (a literal dollar), dollar-ampersand (the matched text),
dollar-backquote (the text before the match) and dollar-quote (the text
after the match); anything else is copied literally. -/
def dollarSubst (matched before after : JsStr) : JsStr → JsStr
  | [] => []
  | c :: rest =>
    if c = dollarChar then
      match rest with
      | [] => [c]
      | d :: rest2 =>
        if d = dollarChar then dollarChar :: dollarSubst matched before after rest2
        else if d = ampChar then matched ++ dollarSubst matched before after rest2
        else if d = backquoteChar then before ++ dollarSubst matched before after rest2
        else if d = singleQuoteChar then after ++ dollarSubst matched before after rest2
        else c :: d :: dollarSubst matched before after rest2
    else c :: dollarSubst matched before after rest

/-- JavaScript s.replace(pat, repl) with a string pattern: replace the
first occurrence of pat (if any) with repl, expanding the substitution
patterns of repl. -/
def jsReplaceFirst (s pat repl : JsStr) : JsStr :=
  match jsIndexOf s pat with
  | none => s
  | some i =>
    s.take i ++ dollarSubst pat (s.take i) (s.drop (i + pat.length)) repl
      ++ s.drop (i + pat.length)

/-! ### The regular-expression fragment

src/main.ts builds `new RegExp(searchTerm, "i")` from the raw search
term.  We embed the fragment of the JavaScript pattern language in which
every token consumes exactly one character: plain characters and the dot
wildcard.  A quantifier character at the start of a pattern is a
JavaScript SyntaxError ("nothing to repeat"); every other metacharacter
leads out of the modelled fragment. -/

inductive RTok where
  | lit (c : Char)
  | dot
deriving DecidableEq

inductive PatParse where
  | good (toks : List RTok)
  | synError
  | unmodelled
deriving DecidableEq

def regexMeta : List Char :=
  ['(', ')', '[', '|', '^', '$', '\\', openBraceChar]

def classifyPatternAux : JsStr → List RTok → PatParse
  | [], acc => .good acc.reverse
  | c :: rest, acc =>
    if c = '.' then classifyPatternAux rest (.dot :: acc)
    else if c = '*' ∨ c = '+' ∨ c = '?' then
      (if acc.isEmpty then .synError else .unmodelled)
    else if regexMeta.contains c then .unmodelled
    else classifyPatternAux rest (.lit c :: acc)

def classifyPattern (pat : JsStr) : PatParse :=
  classifyPatternAux pat []

/-- Case-insensitive character comparison, as performed under the i flag. -/
def ciEq (a b : Char) : Bool :=
  a.toLower == b.toLower

def isLineTerminator (c : Char) : Bool :=
  [('\n'), ('\r'), Char.ofNat 0x2028, Char.ofNat 0x2029].contains c

/-- Whether the token list matches a prefix of s (each token consumes
exactly one character; dot matches anything but a line terminator). -/
def toksMatch : List RTok → JsStr → Bool
  | [], _ => true
  | _ :: _, [] => false
  | t :: ts, c :: rest =>
    (match t with
     | .lit a => ciEq a c
     | .dot => !(isLineTerminator c)) && toksMatch ts rest

/-- Index of the leftmost match of the token list in s. -/
def regexFirstMatch (toks : List RTok) : JsStr → Option Nat
  | [] => if toksMatch toks [] then some 0 else none
  | c :: rest =>
    if toksMatch toks (c :: rest) then some 0
    else (regexFirstMatch toks rest).map (· + 1)

/-- JavaScript s.replace(re, repl) for a regular expression in the
fragment, without the g flag: replace the leftmost match. -/
def regexReplaceFirst (toks : List RTok) (repl s : JsStr) : JsStr :=
  match regexFirstMatch toks s with
  | none => s
  | some i =>
    s.take i
      ++ dollarSubst ((s.drop i).take toks.length) (s.take i)
           (s.drop (i + toks.length)) repl
      ++ s.drop (i + toks.length)

/-! ### encodeURI (used by getUrl, src/main.ts:93-97) -/

def uriMarks : List Char :=
  [';', '/', '?', ':', '@', '&', '=', '+', '$', ',', '-', '_', '.', '!', '~',
   '*', singleQuoteChar, '(', ')', '#']

def isURIAllowed (c : Char) : Bool :=
  c.isAlphanum || uriMarks.contains c

def hexDigit (n : Nat) : Char :=
  if n < 10 then Char.ofNat (48 + n) else Char.ofNat (55 + n)

def utf8Bytes (c : Char) : List Nat :=
  let n := c.toNat
  if n < 0x80 then [n]
  else if n < 0x800 then [0xC0 + n / 64, 0x80 + n % 64]
  else if n < 0x10000 then
    [0xE0 + n / 4096, 0x80 + (n / 64) % 64, 0x80 + n % 64]
  else
    [0xF0 + n / 262144, 0x80 + (n / 4096) % 64, 0x80 + (n / 64) % 64,
     0x80 + n % 64]

def percentHex (b : Nat) : JsStr :=
  ['%', hexDigit (b / 16), hexDigit (b % 16)]

def encodeURI (s : JsStr) : JsStr :=
  (s.map (fun c =>
    if isURIAllowed c then [c] else (utf8Bytes c).map percentHex |>.flatten)).flatten

/-! ### Data model (src/main.ts:16-43) -/

structure WikipediaExtract where
  title : JsStr
  text : JsStr
  url : JsStr
deriving DecidableEq

structure WikipediaPluginSettings where
  template : JsStr
  shouldUseParagraphTemplate : Bool
  shouldBoldSearchTerm : Bool
  paragraphTemplate : JsStr
  language : JsStr
  fetchMarkdown : Bool
deriving DecidableEq

def DEFAULT_SETTINGS : WikipediaPluginSettings where
  template := "\x7b\x7btext\x7d\x7d\n> [Wikipedia](\x7b\x7burl\x7d\x7d)".toList
  shouldUseParagraphTemplate := true
  shouldBoldSearchTerm := true
  paragraphTemplate := "> \x7b\x7bparagraphText\x7d\x7d\n>\n".toList
  language := "en".toList
  fetchMarkdown := false

def disambiguationIdentifier : JsStr := "may refer to:".toList

def paragraphPH : JsStr := "\x7b\x7bparagraphText\x7d\x7d".toList

def textPH : JsStr := "\x7b\x7btext\x7d\x7d".toList

def searchTermPH : JsStr := "\x7b\x7bsearchTerm\x7d\x7d".toList

def urlPH : JsStr := "\x7b\x7burl\x7d\x7d".toList

def eqeqSep : JsStr := "==".toList

def newlineSep : JsStr := "\n".toList

def commaSep : JsStr := ",".toList

/-- src/main.ts:89-91; the empty string is falsy in JavaScript, so an
empty language setting falls back to en. -/
def getLanguage (s : WikipediaPluginSettings) : JsStr :=
  if s.language = [] then "en".toList else s.language

/-- src/main.ts:93-97. -/
def getUrl (s : WikipediaPluginSettings) (title : JsStr) : JsStr :=
  "https://".toList ++ getLanguage s ++ ".wikipedia.org/wiki/".toList
    ++ encodeURI title

/-! ### Errors and responses -/

inductive JsError where
  | typeError
  | syntaxError
  /-- Marker for regular-expression patterns whose JavaScript behaviour
  we do not model; no theorem relies on this constructor. -/
  | outsideModel
deriving DecidableEq

structure WikipediaPage where
  title : JsStr
  extract : JsStr
deriving DecidableEq

/-- The decoded response shape { query: { pages: { key: page } } }; the
page mapping is kept as a key-value list in enumeration order. -/
structure QueryResponse where
  pages : List (JsStr × WikipediaPage)
deriving DecidableEq

def pageKeys (q : QueryResponse) : List JsStr :=
  q.pages.map Prod.fst

/-- src/main.ts:142-158.  Returns none where the source returns
undefined (the sentinel key -1, or an empty page mapping). -/
def parseResponse (s : WikipediaPluginSettings) (q : QueryResponse) :
    Option WikipediaExtract :=
  if "-1".toList ∈ pageKeys q then none
  else
    (q.pages.map (fun kp =>
      ({ title := kp.2.title, text := kp.2.extract,
         url := getUrl s kp.2.title } : WikipediaExtract))).head?

/-- src/main.ts:135-140. -/
def hasDisambiguation (e : WikipediaExtract) : Bool :=
  jsIncludes e.text disambiguationIdentifier

/-- text.split("==")[0].trim(), shared by both branches of
formatExtractText (src/main.ts:107 and 118). -/
def leadText (text : JsStr) : JsStr :=
  jsTrim ((jsSplit text eqeqSep).headD [])

/-- src/main.ts:103-125.  The bold step compiles the raw search term as
a regular expression; an invalid pattern is a thrown SyntaxError. -/
def formatExtractText (s : WikipediaPluginSettings) (extract : WikipediaExtract)
    (searchTerm : JsStr) : Except JsError JsStr :=
  let text := extract.text
  let formattedText :=
    if s.shouldUseParagraphTemplate then
      jsTrim (((jsSplit (leadText text) newlineSep).map
        (fun paragraph => jsReplaceFirst s.paragraphTemplate paragraphPH paragraph)).flatten)
    else
      leadText text
  if s.shouldBoldSearchTerm then
    match classifyPattern searchTerm with
    | .good toks =>
        .ok (regexReplaceFirst toks ("**".toList ++ searchTerm ++ "**".toList)
          formattedText)
    | .synError => .error .syntaxError
    | .unmodelled => .error .outsideModel
  else
    .ok formattedText

/-- The placeholder-substitution chain of formatExtractInsert
(src/main.ts:163-166). -/
def substituteTemplate (template body searchTerm url : JsStr) : JsStr :=
  jsReplaceFirst
    (jsReplaceFirst (jsReplaceFirst template textPH body) searchTermPH searchTerm)
    urlPH url

/-- src/main.ts:160-168. -/
def formatExtractInsert (s : WikipediaPluginSettings) (extract : WikipediaExtract)
    (searchTerm : JsStr) : Except JsError JsStr :=
  (formatExtractText s extract searchTerm).map
    (fun formattedText => substituteTemplate s.template formattedText searchTerm extract.url)

/-- The disambiguation-derived search term, src/main.ts:200-206:
extract.text.split(id)[1].trim().split(",")[0].split("==").pop().trim().
Only evaluated under the hasDisambiguation guard, where element 1 of the
first split exists. -/
def nextSearchTerm (text : JsStr) : JsStr :=
  jsTrim ((jsSplit ((jsSplit (jsTrim ((jsSplit text disambiguationIdentifier).getD 1 []))
    commaSep).headD []) eqeqSep).getLastD [])

/-! ### Orchestration (src/main.ts:170-214) -/

/-- Outcome of request(...).then(JSON.parse): either the decoded response
or a transport/decode failure (in which case the catch handler runs,
emits a notice and yields the Notice object itself as the value). -/
inductive FetchResult where
  | failure
  | success (q : QueryResponse)
deriving DecidableEq

def fetchFailedNotice : JsStr :=
  "Failed to get Wikipedia. Check your internet connection or language prefix.".toList

def notFoundNotice (searchTerm : JsStr) : JsStr :=
  searchTerm ++ " not found on Wikipedia.".toList

def disambigNotice (searchTerm : JsStr) : JsStr :=
  "Disambiguation found for ".toList ++ searchTerm ++ ". Choosing first result.".toList

def couldntResolveNotice : JsStr :=
  "Could not automatically resolve disambiguation.".toList

/-- src/main.ts:170-188.  md is the string a successful
extractWikiMarkdown call would return.  On a fetch failure the catch
handler substitutes a Notice object for the parsed JSON, and
parseResponse then reads resp.query.pages off it: resp.query is
undefined, so a TypeError is thrown.  With fetchMarkdown set, a parse
result of undefined makes the assignment extract.text throw a TypeError.
The first component collects the notices emitted, the second is the
returned value or the thrown error. -/
def getWikipediaText (s : WikipediaPluginSettings) (md : JsStr) (fr : FetchResult) :
    List JsStr × Except JsError (Option WikipediaExtract) :=
  match fr with
  | .failure => ([fetchFailedNotice], .error .typeError)
  | .success q =>
    let extract := parseResponse s q
    if s.fetchMarkdown then
      match extract with
      | none => ([], .error .typeError)
      | some e => ([], .ok (some { e with text := md }))
    else ([], .ok extract)

/-- Result of one pasteIntoEditor invocation: the notices emitted, the
text handed to editor.replaceSelection (if any), and the error that
escaped the call (if any). -/
structure RunResult where
  notices : List JsStr
  inserted : Option JsStr
  thrown : Option JsError
deriving DecidableEq

def exceptError : Except JsError JsStr → Option JsError
  | .error e => some e
  | .ok _ => none

/-- src/main.ts:190-214.  oracle gives the fetch outcome per requested
title, md the markdown text per title. -/
def pasteIntoEditor (s : WikipediaPluginSettings) (oracle : JsStr → FetchResult)
    (md : JsStr → JsStr) (searchTerm : JsStr) : RunResult :=
  match getWikipediaText s (md searchTerm) (oracle searchTerm) with
  | (n1, .error e) => ⟨n1, none, some e⟩
  | (n1, .ok none) => ⟨n1 ++ [notFoundNotice searchTerm], none, none⟩
  | (n1, .ok (some extract)) =>
    if hasDisambiguation extract then
      let nt := nextSearchTerm extract.text
      match getWikipediaText s (md nt) (oracle nt) with
      | (n3, .error e) => ⟨n1 ++ [disambigNotice searchTerm] ++ n3, none, some e⟩
      | (n3, .ok none) =>
          ⟨n1 ++ [disambigNotice searchTerm] ++ n3 ++ [couldntResolveNotice],
           none, none⟩
      | (n3, .ok (some e2)) =>
        match formatExtractInsert s e2 searchTerm with
        | .error e => ⟨n1 ++ [disambigNotice searchTerm] ++ n3, none, some e⟩
        | .ok txt => ⟨n1 ++ [disambigNotice searchTerm] ++ n3, some txt, none⟩
    else
      match formatExtractInsert s extract searchTerm with
      | .error e => ⟨n1, none, some e⟩
      | .ok txt => ⟨n1, some txt, none⟩

/-! ### Shared concrete settings used by the theorems -/

def plainSettings : WikipediaPluginSettings where
  template := textPH
  shouldUseParagraphTemplate := false
  shouldBoldSearchTerm := false
  paragraphTemplate := "> \x7b\x7bparagraphText\x7d\x7d\n>\n".toList
  language := "en".toList
  fetchMarkdown := false

def boldOnlySettings : WikipediaPluginSettings :=
  { plainSettings with shouldBoldSearchTerm := true }

def quoteTemplateSettings : WikipediaPluginSettings :=
  { plainSettings with shouldUseParagraphTemplate := true }

def qNotFound : QueryResponse := ⟨[("-1".toList, ⟨[], []⟩)]⟩

def markdownSettings : WikipediaPluginSettings :=
  { plainSettings with fetchMarkdown := true }

def qAmbiguous : QueryResponse :=
  ⟨[("10".toList, ⟨"T".toList, "T may refer to:\n\nFoo, a place\nBar, b".toList⟩)]⟩

def qFoo : QueryResponse :=
  ⟨[("11".toList, ⟨"Foo".toList, "Foo is nice.".toList⟩)]⟩

def disambOracle : JsStr → FetchResult := fun t =>
  if t = "T".toList then .success qAmbiguous
  else if t = "Foo".toList then .success qFoo
  else .failure

def disambOracle2 : JsStr → FetchResult := fun t =>
  if t = "T".toList then .success qAmbiguous else .success qNotFound

/-- Modelled from the claim C4: take everything after the first
occurrence of the identifier. -/
def afterFirst (pat text : JsStr) : JsStr :=
  match jsIndexOf text pat with
  | none => text
  | some i => text.drop (i + pat.length)

/-- The segment of text before its first occurrence of pat (the whole
text when pat does not occur). -/
def upToFirst (pat text : JsStr) : JsStr :=
  match jsIndexOf text pat with
  | none => text
  | some i => text.take i

/-- Modelled from the claim C4's words: everything after the first
occurrence of "may refer to:", trimmed, the segment before the first
comma, split on "==" taking the last piece, trimmed. -/
def claimNextSearchTerm (text : JsStr) : JsStr :=
  jsTrim ((jsSplit
    (upToFirst commaSep (jsTrim (afterFirst disambiguationIdentifier text)))
    eqeqSep).getLastD [])

/-- The amended C4 step 1: the segment strictly between the first and
the following occurrence of the identifier (everything after the first
occurrence when there is no second), matching the element-1 semantics of
split; the remaining steps as in the claim. -/
def amendedNextSearchTerm (text : JsStr) : JsStr :=
  jsTrim ((jsSplit
    (upToFirst commaSep (jsTrim
      (upToFirst disambiguationIdentifier
        (afterFirst disambiguationIdentifier text))))
    eqeqSep).getLastD [])

/-- A template repeating every placeholder, used to state C7. -/
def c7Template : JsStr :=
  "A".toList ++ textPH ++ "B".toList ++ textPH ++ "C".toList ++ searchTermPH
    ++ "D".toList ++ searchTermPH ++ "E".toList ++ urlPH ++ "F".toList
    ++ urlPH ++ "G".toList

/-! ### C1 -/

/-- C1: when the fetch collaborator fails, the catch handler emits the
fetch-failure notice and nothing reaches the text sink, but the flow
does not terminate cleanly: parseResponse dereferences the Notice object
returned by the catch, so a TypeError escapes pasteIntoEditor. -/
theorem C1_fetch_failure_notice_then_typeError
    (s : WikipediaPluginSettings) (oracle : JsStr → FetchResult)
    (md : JsStr → JsStr) (term : JsStr) (h : oracle term = .failure) :
    pasteIntoEditor s oracle md term =
      ⟨[fetchFailedNotice], none, some .typeError⟩ := by
  simp [pasteIntoEditor, h, getWikipediaText]

theorem C1_fetch_failure_witness :
    pasteIntoEditor DEFAULT_SETTINGS (fun _ => .failure) (fun _ => [])
      "Foo".toList = ⟨[fetchFailedNotice], none, some .typeError⟩ :=
  C1_fetch_failure_notice_then_typeError DEFAULT_SETTINGS (fun _ => .failure)
    (fun _ => []) "Foo".toList rfl

/-! ### C2 -/

/-- C2: at the failing input, the bold step compiles the unescaped term
as a regular expression, so the term a.c matches the body abc and the
body is rewritten even though a.c never occurs literally in it. -/
theorem C2_bold_matches_as_regex_not_literal :
    formatExtractText boldOnlySettings ⟨"t".toList, "abc".toList, "u".toList⟩
      "a.c".toList = .ok ("**a.c**".toList)
    ∧ jsIncludes "abc".toList "a.c".toList = false :=
  ⟨rfl, by decide⟩

/-! ### C3 -/

/-- C3 counterexample: on lead text A-newline-B with the quote paragraph
template, formatBody returns the string ending in newline-gt, not the
claimed string: the single final trim removes only whitespace, so the
trailing gt contributed by the last paragraph template survives. -/
theorem C3_paragraph_template_cex :
    formatExtractText quoteTemplateSettings ⟨[], "A\nB".toList, []⟩ "x".toList
      = .ok ("> A\n>\n> B\n>".toList)
    ∧ ("> A\n>\n> B\n>".toList : JsStr) ≠ "> A\n>\n> B".toList :=
  ⟨rfl, by decide⟩

/-- C3 amended: for every extract whose lead text is A-newline-B, the
paragraph-template pipeline renders each newline-split paragraph through
the template, concatenates with no separator and trims once, yielding
the string with the trailing gt retained. -/
theorem C3_paragraph_template_amended (title url term text : JsStr)
    (h : leadText text = "A\nB".toList) :
    formatExtractText quoteTemplateSettings ⟨title, text, url⟩ term
      = .ok ("> A\n>\n> B\n>".toList) := by
  simp [formatExtractText, quoteTemplateSettings, plainSettings, h]
  rfl

theorem C3_paragraph_template_witness :
    formatExtractText quoteTemplateSettings ⟨[], "A\nB".toList, []⟩ "y".toList
      = .ok ("> A\n>\n> B\n>".toList) :=
  C3_paragraph_template_amended [] [] "y".toList "A\nB".toList (by decide)

/-! ### C6 -/

/-- C6: a response whose pages key set contains the sentinel -1 parses
to NotFound; otherwise the extract is built from the first page in
enumeration order of the pages mapping. -/
theorem C6_parse_response (s : WikipediaPluginSettings) (q : QueryResponse)
    (k : JsStr) (p : WikipediaPage) (rest : List (JsStr × WikipediaPage)) :
    (("-1".toList ∈ pageKeys q) → parseResponse s q = none)
    ∧ (("-1".toList ∉ pageKeys q) → q.pages = (k, p) :: rest →
        parseResponse s q = some ⟨p.title, p.extract, getUrl s p.title⟩) := by
  constructor
  · intro h
    unfold parseResponse
    rw [if_pos h]
  · intro h hq
    unfold parseResponse
    rw [if_neg h, hq]
    simp

theorem C6_parse_response_witness :
    parseResponse DEFAULT_SETTINGS ⟨[("-1".toList, ⟨[], []⟩)]⟩ = none
    ∧ parseResponse DEFAULT_SETTINGS ⟨[("5".toList, ⟨"T".toList, "X".toList⟩)]⟩
        = some ⟨"T".toList, "X".toList, getUrl DEFAULT_SETTINGS "T".toList⟩ :=
  ⟨(C6_parse_response DEFAULT_SETTINGS ⟨[("-1".toList, ⟨[], []⟩)]⟩ [] ⟨[], []⟩ []).1
      (by decide),
   (C6_parse_response DEFAULT_SETTINGS ⟨[("5".toList, ⟨"T".toList, "X".toList⟩)]⟩
      "5".toList ⟨"T".toList, "X".toList⟩ []).2 (by decide) rfl⟩

/-! ### C9 -/

/-- C9 counterexample: formatting is not total (an invalid
regular-expression pattern such as a lone plus throws a SyntaxError from
the RegExp constructor), and an empty extract text does not give an
empty body when the paragraph template is in use. -/
theorem C9_formatting_total_cex :
    formatExtractText boldOnlySettings ⟨[], "Paris".toList, []⟩ "+".toList
      = .error .syntaxError
    ∧ formatExtractText quoteTemplateSettings ⟨[], [], []⟩ "x".toList
      = .ok ("> \n>".toList)
    ∧ ("> \n>".toList : JsStr) ≠ [] :=
  ⟨rfl, rfl, by decide⟩

/-! ### C10 -/

/-- C10: with fetchMarkdown set, a query whose response parses to
NotFound makes getWikipediaText throw a TypeError on the assignment to
extract.text, so pasteIntoEditor throws instead of emitting the
not-found notice; with fetchMarkdown unset the notice is emitted. -/
theorem C10_markdown_not_found_throws
    (s : WikipediaPluginSettings) (oracle : JsStr → FetchResult)
    (md : JsStr → JsStr) (term : JsStr) (q : QueryResponse) :
    (s.fetchMarkdown = true → parseResponse s q = none →
      getWikipediaText s (md term) (.success q) = ([], .error .typeError))
    ∧ (s.fetchMarkdown = true → oracle term = .success q →
        parseResponse s q = none →
        pasteIntoEditor s oracle md term = ⟨[], none, some .typeError⟩)
    ∧ (s.fetchMarkdown = false → oracle term = .success q →
        parseResponse s q = none →
        pasteIntoEditor s oracle md term = ⟨[notFoundNotice term], none, none⟩) := by
  refine ⟨?_, ?_, ?_⟩
  · intro hm hp
    simp [getWikipediaText, hm, hp]
  · intro hm ho hp
    simp [pasteIntoEditor, ho, getWikipediaText, hm, hp]
  · intro hm ho hp
    simp [pasteIntoEditor, ho, getWikipediaText, hm, hp]

theorem C10_markdown_not_found_witness :
    pasteIntoEditor markdownSettings (fun _ => .success qNotFound) (fun _ => [])
      "Z".toList = ⟨[], none, some .typeError⟩
    ∧ pasteIntoEditor plainSettings (fun _ => .success qNotFound) (fun _ => [])
        "Z".toList = ⟨[notFoundNotice "Z".toList], none, none⟩ :=
  ⟨(C10_markdown_not_found_throws markdownSettings (fun _ => .success qNotFound)
      (fun _ => []) "Z".toList qNotFound).2.1 rfl rfl (by decide),
   (C10_markdown_not_found_throws plainSettings (fun _ => .success qNotFound)
      (fun _ => []) "Z".toList qNotFound).2.2 rfl rfl (by decide)⟩

/-! ### C5 -/

/-- On a successful fetch the only notice getWikipediaText can emit is
none at all: the fetch-failure notice belongs to the failure branch. -/
theorem getWikipediaText_success_notices (s : WikipediaPluginSettings)
    (md : JsStr) (q : QueryResponse) :
    (getWikipediaText s md (.success q)).1 = [] := by
  cases hm : s.fetchMarkdown <;> cases hp : parseResponse s q <;>
    simp [getWikipediaText, hm, hp]

/-- C5: when the first fetch returns an ambiguous extract, the run
formats with the extract of the second fetch but with the original
search term, and a NotFound second fetch ends the run with the
could-not-resolve notice and nothing inserted. -/
theorem C5_disambiguation_uses_original_term
    (s : WikipediaPluginSettings) (oracle : JsStr → FetchResult)
    (md : JsStr → JsStr) (term : JsStr) (e1 : WikipediaExtract)
    (h1 : (getWikipediaText s (md term) (oracle term)).2 = .ok (some e1))
    (hd : hasDisambiguation e1 = true) :
    (∀ e2, (getWikipediaText s (md (nextSearchTerm e1.text))
        (oracle (nextSearchTerm e1.text))).2 = .ok (some e2) →
      pasteIntoEditor s oracle md term =
        ⟨[disambigNotice term],
         (formatExtractInsert s e2 term).toOption,
         exceptError (formatExtractInsert s e2 term)⟩)
    ∧ ((getWikipediaText s (md (nextSearchTerm e1.text))
        (oracle (nextSearchTerm e1.text))).2 = .ok none →
      pasteIntoEditor s oracle md term =
        ⟨[disambigNotice term, couldntResolveNotice], none, none⟩) := by
  cases ho : oracle term with
  | failure =>
    rw [ho] at h1
    simp [getWikipediaText] at h1
  | success q =>
    rw [ho] at h1
    have hfull : getWikipediaText s (md term) (oracle term) = ([], .ok (some e1)) := by
      rw [ho]
      exact Prod.ext_iff.mpr ⟨getWikipediaText_success_notices s (md term) q, h1⟩
    constructor
    · intro e2 h2
      cases ho2 : oracle (nextSearchTerm e1.text) with
      | failure =>
        rw [ho2] at h2
        simp [getWikipediaText] at h2
      | success q2 =>
        rw [ho2] at h2
        have hfull2 : getWikipediaText s (md (nextSearchTerm e1.text))
            (oracle (nextSearchTerm e1.text)) = ([], .ok (some e2)) := by
          rw [ho2]
          exact Prod.ext_iff.mpr
            ⟨getWikipediaText_success_notices s (md (nextSearchTerm e1.text)) q2, h2⟩
        simp only [pasteIntoEditor, hfull, hd, if_true, hfull2]
        cases hf : formatExtractInsert s e2 term <;>
          simp [hf, exceptError, Except.toOption]
    · intro h2
      cases ho2 : oracle (nextSearchTerm e1.text) with
      | failure =>
        rw [ho2] at h2
        simp [getWikipediaText] at h2
      | success q2 =>
        rw [ho2] at h2
        have hfull2 : getWikipediaText s (md (nextSearchTerm e1.text))
            (oracle (nextSearchTerm e1.text)) = ([], .ok none) := by
          rw [ho2]
          exact Prod.ext_iff.mpr
            ⟨getWikipediaText_success_notices s (md (nextSearchTerm e1.text)) q2, h2⟩
        simp only [pasteIntoEditor, hfull, hd, if_true, hfull2]
        simp

theorem C5_disambiguation_witness :
    pasteIntoEditor plainSettings disambOracle (fun _ => []) "T".toList =
      ⟨[disambigNotice "T".toList],
       (formatExtractInsert plainSettings
         ⟨"Foo".toList, "Foo is nice.".toList,
          getUrl plainSettings "Foo".toList⟩ "T".toList).toOption,
       exceptError (formatExtractInsert plainSettings
         ⟨"Foo".toList, "Foo is nice.".toList,
          getUrl plainSettings "Foo".toList⟩ "T".toList)⟩
    ∧ pasteIntoEditor plainSettings disambOracle2 (fun _ => []) "T".toList =
      ⟨[disambigNotice "T".toList, couldntResolveNotice], none, none⟩ :=
  ⟨(C5_disambiguation_uses_original_term plainSettings disambOracle (fun _ => [])
      "T".toList ⟨"T".toList, "T may refer to:\n\nFoo, a place\nBar, b".toList,
        getUrl plainSettings "T".toList⟩ rfl (by decide)).1
    ⟨"Foo".toList, "Foo is nice.".toList, getUrl plainSettings "Foo".toList⟩
    rfl,
   (C5_disambiguation_uses_original_term plainSettings disambOracle2 (fun _ => [])
      "T".toList ⟨"T".toList, "T may refer to:\n\nFoo, a place\nBar, b".toList,
        getUrl plainSettings "T".toList⟩ rfl (by decide)).2
    rfl⟩

/-! ### C9, amended -/

/-- C9 amended: the formatting stage is total whenever bolding is
disabled or the search term compiles as a pattern of plain characters
and dots; with bolding enabled an invalid pattern such as a lone plus
is a thrown SyntaxError.  An empty extract text gives an empty body
when the paragraph template is disabled; with it enabled the paragraph
template is applied to the single empty paragraph instead. -/
theorem C9_formatting_total_amended :
    (∀ s e t, s.shouldBoldSearchTerm = false →
      ∃ out, formatExtractText s e t = .ok out)
    ∧ (∀ s e t toks, classifyPattern t = .good toks →
      ∃ out, formatExtractText s e t = .ok out)
    ∧ (∀ s e t, s.shouldBoldSearchTerm = false →
        s.shouldUseParagraphTemplate = false → e.text = [] →
        formatExtractText s e t = .ok []) := by
  refine ⟨?_, ?_, ?_⟩
  · intro s e t hb
    simp [formatExtractText, hb]
  · intro s e t toks hc
    cases hb : s.shouldBoldSearchTerm
    · simp [formatExtractText, hb]
    · simp [formatExtractText, hb, hc]
  · intro s e t hb hp he
    simp [formatExtractText, hb, hp, he]
    decide

theorem C9_formatting_total_witness :
    (∃ out, formatExtractText quoteTemplateSettings ⟨[], "A".toList, []⟩
      "z".toList = .ok out)
    ∧ (∃ out, formatExtractText boldOnlySettings ⟨[], "abc".toList, []⟩
        "b".toList = .ok out)
    ∧ formatExtractText plainSettings ⟨[], [], []⟩ "z".toList = .ok [] :=
  ⟨C9_formatting_total_amended.1 quoteTemplateSettings ⟨[], "A".toList, []⟩
     "z".toList rfl,
   C9_formatting_total_amended.2.1 boldOnlySettings ⟨[], "abc".toList, []⟩
     "b".toList [.lit 'b'] (by decide),
   C9_formatting_total_amended.2.2 plainSettings ⟨[], [], []⟩ "z".toList
     rfl rfl rfl⟩

/-! ### Infrastructure about the string primitives -/

theorem jsIncludes_nil (pat : JsStr) :
    jsIncludes [] pat = pat.isPrefixOf [] := by
  by_cases hp : pat.isPrefixOf ([] : JsStr) <;> simp [jsIncludes, jsIndexOf, hp]

theorem jsIncludes_cons (c : Char) (rest pat : JsStr) :
    jsIncludes (c :: rest) pat =
      (pat.isPrefixOf (c :: rest) || jsIncludes rest pat) := by
  by_cases hp : pat.isPrefixOf (c :: rest) <;> simp [jsIncludes, jsIndexOf, hp]

/-- jsIncludes holds exactly of the substrings, in the decomposition
sense. -/
theorem jsIncludes_iff (s pat : JsStr) :
    jsIncludes s pat = true ↔ ∃ a b, s = a ++ pat ++ b := by
  induction s with
  | nil =>
    rw [jsIncludes_nil]
    cases pat with
    | nil => simp
    | cons p ps =>
      simp only [List.isPrefixOf]
      constructor
      · intro h
        exact absurd h (by simp)
      · rintro ⟨a, b, hab⟩
        exact absurd hab.symm (by simp)
  | cons c rest ih =>
    rw [jsIncludes_cons]
    constructor
    · intro h
      rcases Bool.or_eq_true_iff.mp h with hp | hi
      · obtain ⟨t, ht⟩ := List.isPrefixOf_iff_prefix.mp hp
        exact ⟨[], t, by simp [← ht]⟩
      · obtain ⟨a, b, hab⟩ := ih.mp hi
        exact ⟨c :: a, b, by simp [hab]⟩
    · rintro ⟨a, b, hab⟩
      cases a with
      | nil =>
        simp only [List.nil_append] at hab
        have hpre : pat <+: c :: rest := ⟨b, hab.symm⟩
        rw [Bool.or_eq_true_iff]
        exact Or.inl (List.isPrefixOf_iff_prefix.mpr hpre)
      | cons a0 as =>
        simp only [List.cons_append, List.cons.injEq] at hab
        rw [Bool.or_eq_true_iff]
        exact Or.inr (ih.mpr ⟨as, b, hab.2⟩)

theorem jsIncludes_short (s pat : JsStr) (h : s.length < pat.length) :
    jsIncludes s pat = false := by
  by_contra hh
  rw [Bool.not_eq_false] at hh
  obtain ⟨a, b, hab⟩ := (jsIncludes_iff s pat).mp hh
  rw [hab] at h
  simp only [List.length_append] at h
  omega

theorem isPrefixOf_append_left (p w z : JsStr) (h : p.length ≤ w.length) :
    p.isPrefixOf (w ++ z) = p.isPrefixOf w := by
  induction p generalizing w with
  | nil => simp [List.isPrefixOf]
  | cons a as ih =>
    cases w with
    | nil => simp at h
    | cons b bs =>
      simp only [List.cons_append, List.isPrefixOf, List.append_eq]
      rw [ih bs (by simpa using h)]

/-- How an occurrence of pat in x ++ y can sit: inside x, inside y, or
straddling the boundary, in which case a nonempty proper prefix of pat
is a suffix of x and the matching remainder of pat is a prefix of y. -/
theorem jsIncludes_append_cases (x y pat : JsStr)
    (h : jsIncludes (x ++ y) pat = true) :
    jsIncludes x pat = true ∨ jsIncludes y pat = true ∨
      ∃ k, 0 < k ∧ k < pat.length ∧ (pat.take k).isSuffixOf x = true ∧
        (pat.drop k).isPrefixOf y = true := by
  obtain ⟨a, b, hab⟩ := (jsIncludes_iff _ _).mp h
  have hab2 : x ++ y = a ++ (pat ++ b) := by simpa [List.append_assoc] using hab
  rcases Nat.lt_or_ge x.length (a.length + 1) with hxa | hxa
  · -- x.length ≤ a.length: the occurrence is inside y
    right; left
    have hy : y = a.drop x.length ++ (pat ++ b) :=
      calc y = List.drop x.length (x ++ y) := (List.drop_left x y).symm
        _ = List.drop x.length (a ++ (pat ++ b)) := by rw [hab2]
        _ = a.drop x.length ++ (pat ++ b) := by
              rw [List.drop_append_eq_append_drop,
                  show x.length - a.length = 0 by omega, List.drop_zero]
    exact (jsIncludes_iff _ _).mpr
      ⟨a.drop x.length, b, by simpa [List.append_assoc] using hy⟩
  · rcases Nat.lt_or_ge x.length (a.length + pat.length) with hstrad | hin
    · -- straddle: a.length < x.length < a.length + pat.length
      right; right
      refine ⟨x.length - a.length, by omega, by omega, ?_, ?_⟩
      · have hx : x = a ++ pat.take (x.length - a.length) :=
          calc x = List.take x.length (x ++ y) := (List.take_left x y).symm
            _ = List.take x.length (a ++ (pat ++ b)) := by rw [hab2]
            _ = a ++ pat.take (x.length - a.length) := by
                  rw [List.take_append_eq_append_take,
                      List.take_of_length_le (by omega),
                      List.take_append_of_le_length (by omega)]
        rw [List.isSuffixOf_iff_suffix]
        exact ⟨a, hx.symm⟩
      · have hy : y = pat.drop (x.length - a.length) ++ b :=
          calc y = List.drop x.length (x ++ y) := (List.drop_left x y).symm
            _ = List.drop x.length (a ++ (pat ++ b)) := by rw [hab2]
            _ = pat.drop (x.length - a.length) ++ b := by
                  rw [List.drop_append_eq_append_drop,
                      List.drop_eq_nil_of_le (by omega),
                      List.drop_append_eq_append_drop,
                      show x.length - a.length - pat.length = 0 by omega,
                      List.drop_zero, List.nil_append]
        rw [List.isPrefixOf_iff_prefix]
        exact ⟨b, hy.symm⟩
    · -- the occurrence is inside x
      left
      have hx : x = a ++ (pat ++ b.take (x.length - a.length - pat.length)) :=
        calc x = List.take x.length (x ++ y) := (List.take_left x y).symm
          _ = List.take x.length (a ++ (pat ++ b)) := by rw [hab2]
          _ = a ++ (pat ++ b.take (x.length - a.length - pat.length)) := by
                rw [List.take_append_eq_append_take,
                    List.take_of_length_le (by omega),
                    List.take_append_eq_append_take,
                    List.take_of_length_le (by omega)]
      exact (jsIncludes_iff _ _).mpr
        ⟨a, b.take (x.length - a.length - pat.length),
         by simpa [List.append_assoc] using hx⟩

theorem jsIncludes_append_false_right (x y pat : JsStr)
    (hx : jsIncludes x pat = false) (hy : jsIncludes y pat = false)
    (hstr : ∀ k, k < pat.length → 0 < k → (pat.drop k).isPrefixOf y = false) :
    jsIncludes (x ++ y) pat = false := by
  by_contra h
  rw [Bool.not_eq_false] at h
  rcases jsIncludes_append_cases x y pat h with h1 | h2 | ⟨k, hk0, hkL, _, hkp⟩
  · rw [hx] at h1; exact absurd h1 (by simp)
  · rw [hy] at h2; exact absurd h2 (by simp)
  · rw [hstr k hkL hk0] at hkp; exact absurd hkp (by simp)

theorem jsIncludes_append_false_left (x y pat : JsStr)
    (hx : jsIncludes x pat = false) (hy : jsIncludes y pat = false)
    (hstr : ∀ k, k < pat.length → 0 < k → (pat.take k).isSuffixOf x = false) :
    jsIncludes (x ++ y) pat = false := by
  by_contra h
  rw [Bool.not_eq_false] at h
  rcases jsIncludes_append_cases x y pat h with h1 | h2 | ⟨k, hk0, hkL, hks, _⟩
  · rw [hx] at h1; exact absurd h1 (by simp)
  · rw [hy] at h2; exact absurd h2 (by simp)
  · rw [hstr k hkL hk0] at hks; exact absurd hks (by simp)

theorem jsIncludes_append_of_left (x z pat : JsStr)
    (h : jsIncludes x pat = true) : jsIncludes (x ++ z) pat = true := by
  obtain ⟨u, v, huv⟩ := (jsIncludes_iff _ _).mp h
  exact (jsIncludes_iff _ _).mpr ⟨u, v ++ z, by simp [huv, List.append_assoc]⟩

/-- When pat has no occurrence ending strictly before the copy of pat
that follows a, the first occurrence of pat in a ++ pat ++ b sits
exactly at a.length. -/
theorem jsIndexOf_first_at (a pat b : JsStr) (hpat : pat ≠ [])
    (h : jsIncludes (a ++ pat.take (pat.length - 1)) pat = false) :
    jsIndexOf (a ++ (pat ++ b)) pat = some a.length := by
  induction a with
  | nil =>
    cases pat with
    | nil => exact absurd rfl hpat
    | cons p ps =>
      simp only [List.nil_append, List.cons_append, jsIndexOf]
      rw [if_pos]
      · rfl
      · exact List.isPrefixOf_iff_prefix.mpr
          (by simpa [List.cons_append] using List.prefix_append (p :: ps) b)
  | cons c as ih =>
    have hpre : pat.isPrefixOf (c :: (as ++ (pat ++ b))) = false := by
      by_contra hcon
      rw [Bool.not_eq_false] at hcon
      obtain ⟨t, ht⟩ := List.isPrefixOf_iff_prefix.mp hcon
      rcases Nat.lt_or_ge (c :: as).length pat.length with hlen | hlen
      · -- straddling occurrence at position zero
        have hpat_eq : pat = (c :: as) ++ pat.take (pat.length - (c :: as).length) :=
          calc pat = (pat ++ t).take pat.length := by
                rw [List.take_append_of_le_length (le_refl _), List.take_length]
            _ = ((c :: as) ++ (pat ++ b)).take pat.length := by
                rw [ht]; simp [List.cons_append]
            _ = (c :: as) ++ (pat ++ b).take (pat.length - (c :: as).length) := by
                rw [List.take_append_eq_append_take,
                    List.take_of_length_le (by omega)]
            _ = (c :: as) ++ pat.take (pat.length - (c :: as).length) := by
                rw [List.take_append_of_le_length (by omega)]
        have hm : pat.length - (c :: as).length ≤ pat.length - 1 := by
          simp only [List.length_cons]
          omega
        have hsplit : pat.take (pat.length - 1) =
            pat.take (pat.length - (c :: as).length)
              ++ (pat.take (pat.length - 1)).drop (pat.length - (c :: as).length) := by
          conv_lhs =>
            rw [← List.take_append_drop (pat.length - (c :: as).length)
              (pat.take (pat.length - 1))]
          rw [List.take_take, Nat.min_eq_left hm]
        have hinc : jsIncludes ((c :: as) ++ pat.take (pat.length - 1)) pat = true := by
          apply (jsIncludes_iff _ _).mpr
          refine ⟨[], (pat.take (pat.length - 1)).drop (pat.length - (c :: as).length), ?_⟩
          rw [List.nil_append]
          calc (c :: as) ++ pat.take (pat.length - 1)
              = (c :: as) ++ (pat.take (pat.length - (c :: as).length)
                  ++ (pat.take (pat.length - 1)).drop (pat.length - (c :: as).length)) := by
                rw [← hsplit]
            _ = ((c :: as) ++ pat.take (pat.length - (c :: as).length))
                  ++ (pat.take (pat.length - 1)).drop (pat.length - (c :: as).length) := by
                rw [List.append_assoc]
            _ = pat ++ (pat.take (pat.length - 1)).drop (pat.length - (c :: as).length) := by
                rw [← hpat_eq]
        rw [h] at hinc
        exact absurd hinc (by simp)
      · -- occurrence contained in c :: as
        have hpA : pat = (c :: as).take pat.length :=
          calc pat = (pat ++ t).take pat.length := by
                rw [List.take_append_of_le_length (le_refl _), List.take_length]
            _ = ((c :: as) ++ (pat ++ b)).take pat.length := by
                rw [ht]; simp [List.cons_append]
            _ = (c :: as).take pat.length := by
                rw [List.take_append_of_le_length hlen]
        have hA : jsIncludes (c :: as) pat = true := by
          apply (jsIncludes_iff _ _).mpr
          refine ⟨[], (c :: as).drop pat.length, ?_⟩
          rw [List.nil_append]
          conv_lhs => rw [← List.take_append_drop pat.length (c :: as)]
          rw [← hpA]
        have hinc := jsIncludes_append_of_left (c :: as) (pat.take (pat.length - 1)) pat hA
        rw [h] at hinc
        exact absurd hinc (by simp)
    have hrest : jsIncludes (as ++ pat.take (pat.length - 1)) pat = false := by
      have h2 := h
      rw [List.cons_append, jsIncludes_cons] at h2
      exact (Bool.or_eq_false_iff.mp h2).2
    simp [jsIndexOf, hpre, ih hrest]

theorem dollarFree_subst (m x y : JsStr) :
    ∀ r, dollarChar ∉ r → dollarSubst m x y r = r := by
  intro r
  induction r with
  | nil => intro _; rfl
  | cons c rest ih =>
    intro h
    have hc : ¬(c = dollarChar) := fun e => h (by rw [e]; exact List.mem_cons_self _ _)
    have hr : dollarChar ∉ rest := fun hm => h (List.mem_cons_of_mem c hm)
    cases rest with
    | nil => rw [dollarSubst.eq_2, if_neg hc]; rfl
    | cons d rest2 =>
      rw [dollarSubst.eq_3, if_neg hc, ih hr]

theorem jsReplaceFirst_at (s a pat b repl x : JsStr) (hs : s = a ++ (pat ++ b))
    (hpat : pat ≠ [])
    (hx : x = a ++ pat.take (pat.length - 1))
    (h : jsIncludes x pat = false)
    (hrepl : dollarChar ∉ repl) :
    jsReplaceFirst s pat repl = a ++ repl ++ b := by
  rw [hx] at h
  subst hs
  unfold jsReplaceFirst
  rw [jsIndexOf_first_at a pat b hpat h]
  have hdrop : (a ++ (pat ++ b)).drop (a.length + pat.length) = b := by
    rw [show a ++ (pat ++ b) = (a ++ pat) ++ b by simp [List.append_assoc]]
    rw [show a.length + pat.length = (a ++ pat).length by simp]
    exact List.drop_left _ _
  simp only [List.take_left, hdrop]
  rw [dollarFree_subst pat a b repl hrepl]

theorem jsReplaceFirst_no_occur (s pat repl : JsStr)
    (h : jsIncludes s pat = false) : jsReplaceFirst s pat repl = s := by
  unfold jsReplaceFirst
  cases hidx : jsIndexOf s pat with
  | none => rfl
  | some i => rw [jsIncludes, hidx] at h; exact absurd h (by simp)

theorem jsReplaceFirst_self (pat repl : JsStr) (hpat : pat ≠ [])
    (hrepl : dollarChar ∉ repl) :
    jsReplaceFirst pat pat repl = repl := by
  have htk : jsIncludes ([] ++ pat.take (pat.length - 1)) pat = false := by
    apply jsIncludes_short
    simp only [List.nil_append, List.length_take]
    have : pat.length ≠ 0 := fun e => hpat (List.length_eq_zero.mp e)
    omega
  have h2 := jsReplaceFirst_at pat [] pat [] repl
    ([] ++ pat.take (pat.length - 1)) (by simp) hpat rfl htk hrepl
  exact h2.trans (by simp)

/-- Any sufficient fuel computes the same split. -/
theorem jsSplitF_fuel_any (sep : JsStr) :
    ∀ n s acc f g, s.length = n → s.length ≤ f → s.length ≤ g →
      jsSplitF sep f s acc = jsSplitF sep g s acc := by
  intro n
  induction n using Nat.strong_induction_on with
  | _ n ih =>
    intro s acc f g hn hf hg
    cases s with
    | nil =>
      cases f <;> cases g <;> simp [jsSplitF]
    | cons c rest =>
      simp only [List.length_cons] at hn hf hg
      cases f with
      | zero => omega
      | succ f1 =>
        cases g with
        | zero => omega
        | succ g1 =>
          simp only [jsSplitF]
          by_cases hcond : sep ≠ [] ∧ sep.isPrefixOf (c :: rest)
          · rw [if_pos hcond, if_pos hcond]
            have hlen : (rest.drop (sep.length - 1)).length < n := by
              rw [List.length_drop]
              omega
            rw [ih (rest.drop (sep.length - 1)).length hlen _ []
              f1 g1 rfl ?_ ?_]
            · rw [List.length_drop]; omega
            · rw [List.length_drop]; omega
          · rw [if_neg hcond, if_neg hcond]
            exact ih rest.length (by omega) rest (c :: acc) f1 g1 rfl
              (by omega) (by omega)

/-- The split worker, characterised by the first occurrence of the
separator. -/
theorem jsSplitF_eq_indexOf (sep : JsStr) (hsep : sep ≠ []) :
    ∀ n s acc, s.length ≤ n →
      jsSplitF sep n s acc =
        match jsIndexOf s sep with
        | none => [acc.reverse ++ s]
        | some i =>
          (acc.reverse ++ s.take i) ::
            jsSplitF sep (s.drop (i + sep.length)).length
              (s.drop (i + sep.length)) [] := by
  intro n
  induction n with
  | zero =>
    intro s acc hs
    have hnil : s = [] := List.length_eq_zero.mp (by omega)
    subst hnil
    have : jsIndexOf ([] : JsStr) sep = none := by
      cases sep with
      | nil => exact absurd rfl hsep
      | cons q qs => simp [jsIndexOf, List.isPrefixOf]
    rw [this]
    simp [jsSplitF]
  | succ n1 ihn =>
    intro s acc hs
    cases s with
    | nil =>
      have : jsIndexOf ([] : JsStr) sep = none := by
        cases sep with
        | nil => exact absurd rfl hsep
        | cons q qs => simp [jsIndexOf, List.isPrefixOf]
      rw [this]
      simp [jsSplitF]
    | cons c rest =>
      simp only [List.length_cons] at hs
      by_cases hp : sep.isPrefixOf (c :: rest)
      · have hidx : jsIndexOf (c :: rest) sep = some 0 := by
          simp [jsIndexOf, hp]
        rw [hidx]
        obtain ⟨s0, st, hseq⟩ : ∃ s0 st, sep = s0 :: st := by
          cases sep with
          | nil => exact absurd rfl hsep
          | cons s0 st => exact ⟨s0, st, rfl⟩
        simp only [jsSplitF, if_pos (And.intro hsep hp)]
        have hdrop : (c :: rest).drop (0 + sep.length) = rest.drop (sep.length - 1) := by
          rw [Nat.zero_add, hseq]
          simp [List.drop_succ_cons]
        rw [hdrop]
        rw [List.take_zero, List.append_nil]
        rw [jsSplitF_fuel_any sep (rest.drop (sep.length - 1)).length _ []
          n1 (rest.drop (sep.length - 1)).length rfl ?_ (le_refl _)]
        rw [List.length_drop]
        omega
      · have hidx : jsIndexOf (c :: rest) sep = (jsIndexOf rest sep).map (· + 1) := by
          simp [jsIndexOf, hp]
        rw [hidx]
        have hcond : ¬(sep ≠ [] ∧ sep.isPrefixOf (c :: rest)) := by
          intro hcon
          rw [hcon.2] at hp
          exact hp rfl
        simp only [jsSplitF, if_neg hcond]
        rw [ihn rest (c :: acc) (by omega)]
        cases hrest : jsIndexOf rest sep with
        | none =>
          simp [List.reverse_cons, List.append_assoc]
        | some j =>
          simp only [Option.map_some']
          rw [List.take_succ_cons, List.reverse_cons]
          have hdrop2 : (c :: rest).drop (j + 1 + sep.length) = rest.drop (j + sep.length) := by
            rw [show j + 1 + sep.length = (j + sep.length) + 1 by omega]
            exact List.drop_succ_cons
          rw [hdrop2]
          simp [List.append_assoc]

/-- jsSplit on a nonempty separator, characterised by jsIndexOf. -/
theorem jsSplit_eq_indexOf (s sep : JsStr) (hsep : sep ≠ []) :
    jsSplit s sep =
      match jsIndexOf s sep with
      | none => [s]
      | some i => s.take i :: jsSplit (s.drop (i + sep.length)) sep := by
  unfold jsSplit
  simp only [if_neg hsep]
  rw [jsSplitF_eq_indexOf sep hsep s.length s [] (le_refl _)]
  cases hidx : jsIndexOf s sep <;> simp

/-- The head of a split is the segment before the first separator. -/
theorem jsSplit_headD_eq (s sep : JsStr) (hsep : sep ≠ []) :
    (jsSplit s sep).headD [] = upToFirst sep s := by
  rw [jsSplit_eq_indexOf s sep hsep]
  unfold upToFirst
  cases jsIndexOf s sep <;> simp

/-- Element 1 of a split (JavaScript split(...)[1]) is the head of the
split of the remainder after the first separator occurrence. -/
theorem jsSplit_getD_one (s sep : JsStr) (i : Nat) (hsep : sep ≠ [])
    (hidx : jsIndexOf s sep = some i) :
    (jsSplit s sep).getD 1 [] =
      (jsSplit (s.drop (i + sep.length)) sep).headD [] := by
  rw [jsSplit_eq_indexOf s sep hsep, hidx]
  cases h2 : jsSplit (s.drop (i + sep.length)) sep with
  | nil => simp [h2]
  | cons w ws => simp [h2]

/-! ### C4 -/

/-- C4 counterexample: when the identifier occurs twice before the first
comma, split(id)[1] is the segment between the first and second
occurrences, not everything after the first occurrence as the claim
describes; the two procedures disagree on this input. -/
theorem C4_next_search_term_cex :
    nextSearchTerm "a may refer to: b may refer to: c, d".toList = "b".toList
    ∧ claimNextSearchTerm "a may refer to: b may refer to: c, d".toList
        = "b may refer to: c".toList
    ∧ ¬(nextSearchTerm "a may refer to: b may refer to: c, d".toList
        = claimNextSearchTerm "a may refer to: b may refer to: c, d".toList) :=
  ⟨by decide, by decide, by decide⟩

/-- C4 amended: on every ambiguous text, nextSearchTerm takes the
segment strictly between the first occurrence of "may refer to:" and
the following occurrence in the remainder (everything after the first
occurrence when there is no second), trims it, takes the segment before
the first comma, splits on "==" taking the last piece, and trims; on the
claim's example it yields Foo. -/
theorem C4_next_search_term_amended :
    (∀ text, jsIncludes text disambiguationIdentifier = true →
      nextSearchTerm text = amendedNextSearchTerm text)
    ∧ nextSearchTerm "X may refer to:\n\nFoo, a place\nBar, a person".toList
        = "Foo".toList := by
  constructor
  · intro text h
    unfold jsIncludes at h
    obtain ⟨i, hidx⟩ := Option.isSome_iff_exists.mp h
    unfold nextSearchTerm amendedNextSearchTerm
    rw [jsSplit_getD_one text disambiguationIdentifier i (by decide) hidx]
    rw [jsSplit_headD_eq (text.drop (i + disambiguationIdentifier.length))
      disambiguationIdentifier (by decide)]
    rw [jsSplit_headD_eq _ commaSep (by decide)]
    unfold afterFirst
    rw [hidx]
  · decide

theorem C4_next_search_term_witness :
    nextSearchTerm "X may refer to:\n\nFoo, a place\nBar, a person".toList =
      amendedNextSearchTerm "X may refer to:\n\nFoo, a place\nBar, a person".toList :=
  C4_next_search_term_amended.1 "X may refer to:\n\nFoo, a place\nBar, a person".toList
    (by decide)

/-! ### C8 -/

/-- C8: the disambiguation test is exactly substring containment of the
literal identifier "may refer to:" in the extract text. -/
theorem C8_is_ambiguous_iff_contains (e : WikipediaExtract) :
    hasDisambiguation e = true ↔
      ∃ a b, e.text = a ++ disambiguationIdentifier ++ b := by
  unfold hasDisambiguation
  exact jsIncludes_iff e.text disambiguationIdentifier

theorem C8_is_ambiguous_witness :
    ∃ a b, ("X may refer to: Y".toList : JsStr)
      = a ++ disambiguationIdentifier ++ b :=
  (C8_is_ambiguous_iff_contains ⟨[], "X may refer to: Y".toList, []⟩).mp (by decide)

/-! ### C7 -/

/-- C7: each placeholder is substituted only at its first occurrence (a
template repeating a placeholder keeps the later occurrences), and a
literal text placeholder inside the substituted body is not
re-substituted. -/
theorem C7_format_insert_first_occurrence_only (body term url b1 b2 : JsStr) :
    ((dollarChar ∉ body) → (dollarChar ∉ term) → (dollarChar ∉ url) →
      jsIncludes body searchTermPH = false → jsIncludes body urlPH = false →
      jsIncludes term urlPH = false →
      substituteTemplate c7Template body term url =
        "A".toList ++ body ++ "B".toList ++ textPH ++ "C".toList ++ term
          ++ "D".toList ++ searchTermPH ++ "E".toList ++ url ++ "F".toList
          ++ urlPH ++ "G".toList)
    ∧ ((dollarChar ∉ b1 ++ textPH ++ b2) →
        jsIncludes (b1 ++ textPH ++ b2) searchTermPH = false →
        jsIncludes (b1 ++ textPH ++ b2) urlPH = false →
        substituteTemplate textPH (b1 ++ textPH ++ b2) term url
          = b1 ++ textPH ++ b2) := by
  constructor
  · intro hdb hdt hdu hbs hbu htu
    unfold substituteTemplate
    rw [jsReplaceFirst_at c7Template "A".toList textPH
      ("B".toList ++ textPH ++ "C".toList ++ searchTermPH ++ "D".toList
        ++ searchTermPH ++ "E".toList ++ urlPH ++ "F".toList ++ urlPH
        ++ "G".toList) body
      ("A".toList ++ textPH.take (textPH.length - 1)) rfl (by decide) rfl
      (by decide) hdb]
    have hT2 : jsIncludes ("B".toList ++ textPH ++ "C".toList
        ++ searchTermPH.take (searchTermPH.length - 1)) searchTermPH = false := by
      decide
    have hstr2 : ∀ k, k < searchTermPH.length → 0 < k →
        (searchTermPH.drop k).isPrefixOf ("B".toList ++ textPH ++ "C".toList
          ++ searchTermPH.take (searchTermPH.length - 1)) = false := by decide
    have hmid2 := jsIncludes_append_false_right body
      ("B".toList ++ textPH ++ "C".toList
        ++ searchTermPH.take (searchTermPH.length - 1))
      searchTermPH hbs hT2 hstr2
    have hstrA2 : ∀ k, k < searchTermPH.length → 0 < k →
        (searchTermPH.take k).isSuffixOf "A".toList = false := by decide
    have hA2 := jsIncludes_append_false_left "A".toList
      (body ++ ("B".toList ++ textPH ++ "C".toList
        ++ searchTermPH.take (searchTermPH.length - 1)))
      searchTermPH (by decide) hmid2 hstrA2
    rw [jsReplaceFirst_at
      ("A".toList ++ body ++ ("B".toList ++ textPH ++ "C".toList
        ++ searchTermPH ++ "D".toList ++ searchTermPH ++ "E".toList ++ urlPH
        ++ "F".toList ++ urlPH ++ "G".toList))
      ("A".toList ++ body ++ "B".toList ++ textPH ++ "C".toList) searchTermPH
      ("D".toList ++ searchTermPH ++ "E".toList ++ urlPH ++ "F".toList
        ++ urlPH ++ "G".toList) term
      ("A".toList ++ (body ++ ("B".toList ++ textPH ++ "C".toList
        ++ searchTermPH.take (searchTermPH.length - 1))))
      (by simp [List.append_assoc]) (by decide)
      (by simp [List.append_assoc]) hA2 hdt]
    have hT3 : jsIncludes ("D".toList ++ searchTermPH ++ "E".toList
        ++ urlPH.take (urlPH.length - 1)) urlPH = false := by decide
    have hstrT3 : ∀ k, k < urlPH.length → 0 < k →
        (urlPH.drop k).isPrefixOf ("D".toList ++ searchTermPH ++ "E".toList
          ++ urlPH.take (urlPH.length - 1)) = false := by decide
    have hterm3 := jsIncludes_append_false_right term
      ("D".toList ++ searchTermPH ++ "E".toList ++ urlPH.take (urlPH.length - 1))
      urlPH htu hT3 hstrT3
    have hBC : jsIncludes ("B".toList ++ textPH ++ "C".toList) urlPH = false := by
      decide
    have hstrBC : ∀ k, k < urlPH.length → 0 < k →
        (urlPH.take k).isSuffixOf ("B".toList ++ textPH ++ "C".toList) = false := by
      decide
    have hBC3 := jsIncludes_append_false_left ("B".toList ++ textPH ++ "C".toList)
      (term ++ ("D".toList ++ searchTermPH ++ "E".toList
        ++ urlPH.take (urlPH.length - 1))) urlPH hBC hterm3 hstrBC
    have hstrBody : ∀ k, k < urlPH.length → 0 < k →
        (urlPH.drop k).isPrefixOf (("B".toList ++ textPH ++ "C".toList)
          ++ (term ++ ("D".toList ++ searchTermPH ++ "E".toList
            ++ urlPH.take (urlPH.length - 1)))) = false := by
      intro k hk h0
      rw [isPrefixOf_append_left (urlPH.drop k)
        ("B".toList ++ textPH ++ "C".toList) _
        (by
          rw [List.length_drop]
          have h7 : urlPH.length = 7 := by decide
          have h10 : ("B".toList ++ textPH ++ "C".toList).length = 10 := by decide
          rw [h7, h10]
          omega)]
      revert k
      decide
    have hbody3 := jsIncludes_append_false_right body
      (("B".toList ++ textPH ++ "C".toList) ++ (term ++ ("D".toList
        ++ searchTermPH ++ "E".toList ++ urlPH.take (urlPH.length - 1))))
      urlPH hbu hBC3 hstrBody
    have hstrA3 : ∀ k, k < urlPH.length → 0 < k →
        (urlPH.take k).isSuffixOf "A".toList = false := by decide
    have hA3 := jsIncludes_append_false_left "A".toList
      (body ++ (("B".toList ++ textPH ++ "C".toList) ++ (term ++ ("D".toList
        ++ searchTermPH ++ "E".toList ++ urlPH.take (urlPH.length - 1)))))
      urlPH (by decide) hbody3 hstrA3
    rw [jsReplaceFirst_at
      ("A".toList ++ body ++ "B".toList ++ textPH ++ "C".toList ++ term
        ++ ("D".toList ++ searchTermPH ++ "E".toList ++ urlPH ++ "F".toList
          ++ urlPH ++ "G".toList))
      ("A".toList ++ body ++ "B".toList ++ textPH ++ "C".toList ++ term
        ++ "D".toList ++ searchTermPH ++ "E".toList) urlPH
      ("F".toList ++ urlPH ++ "G".toList) url
      ("A".toList ++ (body ++ (("B".toList ++ textPH ++ "C".toList)
        ++ (term ++ ("D".toList ++ searchTermPH ++ "E".toList
          ++ urlPH.take (urlPH.length - 1))))))
      (by simp [List.append_assoc]) (by decide)
      (by simp [List.append_assoc]) hA3 hdu]
    simp [List.append_assoc]
  · intro hd hs hu
    unfold substituteTemplate
    rw [jsReplaceFirst_self textPH (b1 ++ textPH ++ b2) (by decide) hd]
    rw [jsReplaceFirst_no_occur (b1 ++ textPH ++ b2) searchTermPH term hs]
    rw [jsReplaceFirst_no_occur (b1 ++ textPH ++ b2) urlPH url hu]

theorem C7_format_insert_witness :
    substituteTemplate c7Template "hi".toList "T".toList "U".toList =
      "A".toList ++ "hi".toList ++ "B".toList ++ textPH ++ "C".toList
        ++ "T".toList ++ "D".toList ++ searchTermPH ++ "E".toList
        ++ "U".toList ++ "F".toList ++ urlPH ++ "G".toList
    ∧ substituteTemplate textPH ("X".toList ++ textPH ++ "Y".toList)
        "T".toList "U".toList = "X".toList ++ textPH ++ "Y".toList :=
  ⟨(C7_format_insert_first_occurrence_only "hi".toList "T".toList "U".toList
      [] []).1 (by decide) (by decide) (by decide) (by decide) (by decide)
      (by decide),
   (C7_format_insert_first_occurrence_only "hi".toList "T".toList "U".toList
      "X".toList "Y".toList).2 (by decide) (by decide) (by decide)⟩
